import Mathlib

/-!
# Verification of the subline/sparky token-metrics sparkline renderer

Shallow embedding of the core of the `z0u/subline` repository:

* `Sparky._wrap_tokens` (src/sparky/sparky.py) — the LineBreaker;
* `Sparky._get_token_spans` (src/sparky/sparky.py) and `TokenBB`
  (src/sparky/token_bb.py) — the TokenLayout;
* `Sparkline._create_path_data` / `Sparkline.render`
  (src/subline/sparkline.py) — the CurveRenderer / scene assembly;
* `calc_token_metrics` (src/sparky/inference/calc_metrics.py and
  src/calc_metrics.py) — the MetricsEngine aggregation steps;
* `Series` / `EntropySeries` (src/subline/series.py, src/sparky/series.py)
  and `create_series` (src/sparky/inference/visualize.py) — the SeriesModel;
* `gen_ids` (src/dom.py) — the SVG id generator.

Modelling conventions:

* Python/NumPy/Torch floating point is modelled as exact arithmetic.
  Quantities that are finite by construction (geometry: widths, x-anchors,
  budgets) live in `ℚ`; quantities that can be IEEE non-finite (metric
  values, which the code deliberately seeds with NaN, and results of
  division by zero) live in the carrier `F` below, a rational-valued float
  model with `nan`/`inf`/`-inf`.  `ℚ` has no negative zero; none of the
  verified properties depends on the sign of zero or on rounding.
* Transcendental library calls (`torch.exp`, `math.log`) are not rational;
  they enter the embedding as explicit parameters (`expQ : ℚ → ℚ` standing
  for `torch.exp`, `max_entropy : ℚ` standing for `math.log(vocab_size)`),
  constrained only by the facts the code relies on (e.g. `exp ≥ 0`,
  `log 1 = 0`).
-/

/-- Float model: a rational-valued stand-in for IEEE doubles, with a single
`nan`, `inf` and `ninf` (negative infinity).  Finite values are exact. -/
inductive F where
  | nan : F
  | inf : F
  | ninf : F
  | fin : ℚ → F
deriving DecidableEq, Repr

/-- `math.isnan` / `torch.isnan`. -/
def F.isnan : F → Bool
  | .nan => true
  | _ => false

/-- IEEE negation on the float model (`-x`; torch negation maps NaN to NaN). -/
def fneg : F → F
  | .nan => .nan
  | .inf => .ninf
  | .ninf => .inf
  | .fin q => .fin (-q)

/-- IEEE addition on the float model. -/
def fadd : F → F → F
  | .nan, _ => .nan
  | _, .nan => .nan
  | .inf, .ninf => .nan
  | .ninf, .inf => .nan
  | .inf, _ => .inf
  | _, .inf => .inf
  | .ninf, _ => .ninf
  | _, .ninf => .ninf
  | .fin a, .fin b => .fin (a + b)

/-- IEEE subtraction on the float model. -/
def fsub (a b : F) : F := fadd a (fneg b)

/-- IEEE multiplication on the float model. -/
def fmul : F → F → F
  | .nan, _ => .nan
  | _, .nan => .nan
  | .inf, .inf => .inf
  | .inf, .ninf => .ninf
  | .ninf, .inf => .ninf
  | .ninf, .ninf => .inf
  | .inf, .fin q => if 0 < q then .inf else if q < 0 then .ninf else .nan
  | .ninf, .fin q => if 0 < q then .ninf else if q < 0 then .inf else .nan
  | .fin q, .inf => if 0 < q then .inf else if q < 0 then .ninf else .nan
  | .fin q, .ninf => if 0 < q then .ninf else if q < 0 then .inf else .nan
  | .fin a, .fin b => .fin (a * b)

/-- IEEE division on the float model (`ℚ` has no signed zero, so the sign of
a zero divisor is taken as positive, which is the case the code exercises). -/
def fdiv : F → F → F
  | .nan, _ => .nan
  | _, .nan => .nan
  | .inf, .inf => .nan
  | .inf, .ninf => .nan
  | .ninf, .inf => .nan
  | .ninf, .ninf => .nan
  | .inf, .fin q => if q < 0 then .ninf else .inf
  | .ninf, .fin q => if q < 0 then .inf else .ninf
  | .fin _, .inf => .fin 0
  | .fin _, .ninf => .fin 0
  | .fin a, .fin b =>
    if b = 0 then (if a = 0 then .nan else if 0 < a then .inf else .ninf)
    else .fin (a / b)

theorem fneg_fneg (v : F) : fneg (fneg v) = v := by
  cases v <;> simp [fneg]

theorem map_fneg_fneg (l : List F) : (l.map fneg).map fneg = l := by
  induction l with
  | nil => rfl
  | cons v rest ih => simp [fneg_fneg, ih]

/-- Sum of a list of floats, as `torch.sum` / repeated `+` (left-to-right). -/
def fsum (l : List F) : F := l.foldr fadd (.fin 0)

/-- 1-D bounding box for a token (src/sparky/token_bb.py, `TokenBB`).
All positions are relative to the token start. -/
structure TokenBB where
  width : ℚ
  first_char : ℚ
  mid : ℚ
  last_char : ℚ
deriving DecidableEq, Repr

instance : Inhabited TokenBB := ⟨⟨0, 0, 0, 0⟩⟩

/-- `math.isclose(a, b, rel_tol=rel_tol)` with the default `abs_tol = 0`:
`|a-b| <= max(rel_tol * max(|a|, |b|), abs_tol)`. -/
def isclose (a b rel_tol : ℚ) : Bool :=
  decide (|a - b| ≤ max (rel_tol * max |a| |b|) 0)

/-- `TokenBB.is_wide` (src/sparky/token_bb.py): true when the first- and
last-character anchors are not within 5% relative tolerance. -/
def TokenBB.is_wide (bb : TokenBB) : Bool :=
  ! isclose bb.first_char bb.last_char (1 / 20)

/-- `Sparky._get_token_spans` (src/sparky/sparky.py): bounding box per
display token, `width = char_width * len(token)`, with first/mid/last-char
anchors. -/
def Sparky.get_token_spans (char_width : ℚ) (tokens : List String) : List TokenBB :=
  tokens.map (fun token =>
    let width : ℚ := (token.length : ℚ) * char_width
    { width := width
      first_char := char_width / 2
      mid := width / 2
      last_char := width - char_width / 2 })

/-- Loop of `Sparky._wrap_tokens` (src/sparky/sparky.py): `i` is the index of
the current token, `line_start` the first token of the open line,
`current_width` the accumulated width of the open line.  On overflow the open
line is closed (only when non-empty) and the overflowing token starts a new
line carrying its own width.  After the loop the open line is flushed. -/
def wrapGo (budget : ℚ) : List TokenBB → Nat → Nat → ℚ → List (Nat × Nat)
  | [], i, line_start, _ =>
    if line_start < i then [(line_start, i)] else []
  | span :: rest, i, line_start, current_width =>
    if budget < current_width + span.width then
      (if line_start < i then [(line_start, i)] else [])
        ++ wrapGo budget rest (i + 1) i span.width
    else
      wrapGo budget rest (i + 1) line_start (current_width + span.width)

/-- `Sparky._wrap_tokens` (src/sparky/sparky.py): split tokens into lines of
total width at most `chars_per_line * char_width`, returning `(start, end)`
index pairs. -/
def Sparky.wrap_tokens (chars_per_line char_width : ℚ) (spans : List TokenBB) :
    List (Nat × Nat) :=
  wrapGo (chars_per_line * char_width) spans 0 0 0

/-- The returned line ranges chain from `a` to `b`: each line starts where
the previous one ended, and every line is non-empty. -/
def chainFrom : Nat → List (Nat × Nat) → Nat → Prop
  | a, [], b => a = b
  | a, (s, e) :: rest, b => s = a ∧ s < e ∧ chainFrom e rest b

theorem chainFrom_le : ∀ (l : List (Nat × Nat)) (a b : Nat), chainFrom a l b → a ≤ b := by
  intro l
  induction l with
  | nil => intro a b h; exact Nat.le_of_eq h
  | cons p rest ih =>
    intro a b h
    obtain ⟨hs, hlt, hrest⟩ := h
    exact le_trans (le_of_lt (hs ▸ hlt)) (ih _ _ hrest)

theorem wrapGo_chain (budget : ℚ) :
    ∀ (spans : List TokenBB) (i line_start : Nat) (current_width : ℚ),
      line_start ≤ i →
      chainFrom line_start (wrapGo budget spans i line_start current_width)
        (i + spans.length) := by
  intro spans
  induction spans with
  | nil =>
    intro i ls cw hle
    simp only [wrapGo, List.length_nil, Nat.add_zero]
    rcases Nat.lt_or_ge ls i with h | h
    · simp only [if_pos h]
      exact ⟨rfl, h, rfl⟩
    · have : ls = i := Nat.le_antisymm hle h
      simp only [this, Nat.lt_irrefl, if_false]
      rfl
  | cons span rest ih =>
    intro i ls cw hle
    simp only [wrapGo, List.length_cons]
    have harith : i + 1 + rest.length = i + (rest.length + 1) := by omega
    split
    · rcases Nat.lt_or_ge ls i with h | h
      · simp only [if_pos h, List.cons_append, List.nil_append]
        refine ⟨rfl, h, ?_⟩
        have := ih (i + 1) i span.width (Nat.le_succ i)
        rwa [harith] at this
      · have hlsi : ls = i := Nat.le_antisymm hle h
        subst hlsi
        simp only [Nat.lt_irrefl, if_false, List.nil_append]
        have := ih (ls + 1) ls span.width (Nat.le_succ ls)
        rwa [show ls + 1 + rest.length = ls + (rest.length + 1) by omega] at this
    · have := ih (i + 1) ls (cw + span.width) (Nat.le_succ_of_le hle)
      rwa [harith] at this

theorem chainFrom_flatten :
    ∀ (l : List (Nat × Nat)) (a b : Nat), chainFrom a l b →
      (l.map (fun p => List.range' p.1 (p.2 - p.1))).flatten = List.range' a (b - a) := by
  intro l
  induction l with
  | nil =>
    intro a b h
    cases h
    simp
  | cons p rest ih =>
    intro a b h
    obtain ⟨hs, hlt, hrest⟩ := h
    have hab : a ≤ p.2 := le_of_lt (hs ▸ hlt)
    have hb : p.2 ≤ b := chainFrom_le rest p.2 b hrest
    simp only [List.map_cons, List.flatten_cons, ih p.2 b hrest, hs]
    have key := List.range'_append a (p.2 - a) (b - p.2) 1
    simp only [one_mul] at key
    rw [show a + (p.2 - a) = p.2 by omega] at key
    rw [key]
    congr 1
    omega

theorem chainFrom_mem :
    ∀ (l : List (Nat × Nat)) (a b : Nat), chainFrom a l b → ∀ p ∈ l, p.1 < p.2 := by
  intro l
  induction l with
  | nil => intro a b _ p hp; cases hp
  | cons q rest ih =>
    intro a b h p hp
    obtain ⟨hs, hlt, hrest⟩ := h
    rcases List.mem_cons.mp hp with hp' | hp'
    · exact hp' ▸ hlt
    · exact ih q.2 b hrest p hp'

/-- C1: `Sparky._wrap_tokens` partitions the token index range.  For every
sequence of token bounding boxes and every line budget, the returned
`(start, end)` ranges, concatenated in order, reconstruct `[0, n)` exactly
once per index; no returned line is empty; zero tokens give zero lines; and
a single token — even one whose width alone exceeds the per-line budget —
is placed alone on its own line. -/
theorem wrap_tokens_partition (chars_per_line char_width : ℚ) (spans : List TokenBB) :
    ((Sparky.wrap_tokens chars_per_line char_width spans).map
        (fun p => List.range' p.1 (p.2 - p.1))).flatten = List.range spans.length
    ∧ (∀ p ∈ Sparky.wrap_tokens chars_per_line char_width spans, p.1 < p.2)
    ∧ (spans = [] → Sparky.wrap_tokens chars_per_line char_width spans = [])
    ∧ (∀ bb : TokenBB, Sparky.wrap_tokens chars_per_line char_width [bb] = [(0, 1)]) := by
  have hchain := wrapGo_chain (chars_per_line * char_width) spans 0 0 0 (Nat.le_refl 0)
  simp only [Nat.zero_add] at hchain
  refine ⟨?_, ?_, ?_, ?_⟩
  · have := chainFrom_flatten _ 0 spans.length hchain
    simpa [List.range_eq_range'] using this
  · exact chainFrom_mem _ 0 spans.length hchain
  · intro hnil
    subst hnil
    rfl
  · intro bb
    simp only [Sparky.wrap_tokens, wrapGo]
    split <;> simp [wrapGo]

/-- Witness for C1 at a concrete input: one token of width 21 (wider than the
budget 2 * 8.4 = 16.8) is still placed alone on its own single line. -/
theorem wrap_tokens_partition_witness :
    Sparky.wrap_tokens 2 (42 / 5) [⟨21, 21 / 5, 21 / 2, 21 - 21 / 5⟩] = [(0, 1)]
    ∧ (0 : Nat) < 1 := by
  have h := wrap_tokens_partition 2 (42 / 5) [⟨21, 21 / 5, 21 / 2, 21 - 21 / 5⟩]
  refine ⟨h.2.2.2 _, h.2.1 (0, 1) ?_⟩
  rw [h.2.2.2 ⟨21, 21 / 5, 21 / 2, 21 - 21 / 5⟩]
  exact List.mem_singleton.mpr rfl

/-- One SVG path command, as emitted by `Sparkline._create_path_data`
(src/subline/sparkline.py): a move-to `M x,y` starting a new sub-path, or a
smooth cubic `S cx,cy x,y` continuing the current sub-path. -/
inductive PathCmd where
  | move : ℚ → F → PathCmd
  | smooth : ℚ → F → ℚ → F → PathCmd
deriving DecidableEq, Repr

/-- Loop of `Sparkline._create_path_data` (src/subline/sparkline.py): walk
the peeked `(span, value)` pairs accumulating the running x-offset; a NaN
value stops the current sub-path (`is_drawing := false`, nothing emitted); a
defined value emits a move (when not drawing) or a smooth curve (when
drawing) at the `first_char` anchor, plus a second smooth command at the
`last_char` anchor when the token `is_wide`. -/
def pathGo (h : ℚ) : List (TokenBB × F) → ℚ → Bool → List PathCmd
  | [], _, _ => []
  | (span, v) :: rest, x, is_drawing =>
    if v.isnan then
      pathGo h rest (x + span.width) false
    else
      let y := fsub (.fin h) (fmul (.fin h) v)
      let cp_dx1 := span.first_char
      let cp_dx2 := span.width - span.last_char
      let knot1 : ℚ × ℚ := (x + span.first_char - cp_dx1, x + span.first_char)
      let knot2 : ℚ × ℚ := (x + span.last_char - cp_dx2, x + span.last_char)
      let cmd1 := if is_drawing then PathCmd.smooth knot1.1 y knot1.2 y
                  else PathCmd.move knot1.2 y
      let wide := if span.is_wide then [PathCmd.smooth knot2.1 y knot2.2 y] else []
      cmd1 :: (wide ++ pathGo h rest (x + span.width) true)

/-- The peeked slice of `Sparkline._create_path_data`: expand the window by
one token on each side where available (`max(0, start-1)` to
`min(n, end+1)`), pair spans with values, and start the running offset at
the negative width of the left peek token when there is one.  The Python
`zip(..., strict=True)` requires `values` and `spans` to slice to equal
lengths; `List.zip` silently truncates instead, so theorems that depend on
the pairing carry the corresponding length hypothesis explicitly.  Python's
`peek_spans[0]` would raise IndexError for a window entirely past the end
of `spans`; `headI` totalises that unreachable case (windows come from
`_wrap_tokens` over the same spans, so they are always in range). -/
def peekSlice (spans : List TokenBB) (values : List F) (window : Nat × Nat) :
    List (TokenBB × F) × ℚ :=
  let start := window.1
  let stop := window.2
  let peek_start := start - 1
  let peek_end := min spans.length (stop + 1)
  let peek_spans := (spans.drop peek_start).take (peek_end - peek_start)
  let peek_values := (values.drop peek_start).take (peek_end - peek_start)
  let x0 : ℚ := if peek_start < start then -(peek_spans.headI.width) else 0
  (peek_spans.zip peek_values, x0)

/-- The peeked `(span, value)` pairs of `Sparkline._create_path_data`. -/
def peekPairs (spans : List TokenBB) (values : List F) (window : Nat × Nat) :
    List (TokenBB × F) :=
  (peekSlice spans values window).1

/-- The initial running x-offset of `Sparkline._create_path_data`. -/
def peekX0 (spans : List TokenBB) (values : List F) (window : Nat × Nat) : ℚ :=
  (peekSlice spans values window).2

/-- `Sparkline._create_path_data` (src/subline/sparkline.py), as the list of
emitted path commands. -/
def Sparkline.create_path_data (values : List F) (spans : List TokenBB)
    (window : Nat × Nat) (h : ℚ) : List PathCmd :=
  pathGo h (peekPairs spans values window) (peekX0 spans values window) false

/-- Total width of a list of peeked `(span, value)` pairs. -/
def widthSum (l : List (TokenBB × F)) : ℚ := (l.map (fun p => p.1.width)).sum

/-- The `is_drawing` state after processing a list of pairs. -/
def drawingAfter : List (TokenBB × F) → Bool → Bool
  | [], d => d
  | (_, v) :: rest, _ => drawingAfter rest (!v.isnan)

theorem widthSum_nil : widthSum [] = 0 := rfl

theorem widthSum_cons (p : TokenBB × F) (l : List (TokenBB × F)) :
    widthSum (p :: l) = p.1.width + widthSum l := by
  simp [widthSum]

theorem widthSum_append (l₁ l₂ : List (TokenBB × F)) :
    widthSum (l₁ ++ l₂) = widthSum l₁ + widthSum l₂ := by
  simp [widthSum]

theorem drawingAfter_cons (p : TokenBB × F) (l : List (TokenBB × F)) (d : Bool) :
    drawingAfter (p :: l) d = drawingAfter l (!(p.2).isnan) := rfl

/-- The y-coordinate `h - h * v` computed by `Sparkline._create_path_data`. -/
def yOf (h : ℚ) (v : F) : F := fsub (.fin h) (fmul (.fin h) v)

theorem pathGo_nil (h : ℚ) (x : ℚ) (d : Bool) : pathGo h [] x d = [] := rfl

theorem pathGo_cons_nan (h : ℚ) (span : TokenBB) (v : F)
    (rest : List (TokenBB × F)) (x : ℚ) (d : Bool) (hv : v.isnan = true) :
    pathGo h ((span, v) :: rest) x d = pathGo h rest (x + span.width) false := by
  simp [pathGo, hv]

theorem pathGo_cons_def (h : ℚ) (span : TokenBB) (v : F)
    (rest : List (TokenBB × F)) (x : ℚ) (d : Bool) (hv : v.isnan = false) :
    pathGo h ((span, v) :: rest) x d =
      (if d then
        PathCmd.smooth (x + span.first_char - span.first_char) (yOf h v)
          (x + span.first_char) (yOf h v)
       else PathCmd.move (x + span.first_char) (yOf h v))
      :: ((if span.is_wide then
            [PathCmd.smooth (x + span.last_char - (span.width - span.last_char))
              (yOf h v) (x + span.last_char) (yOf h v)]
           else [])
          ++ pathGo h rest (x + span.width) true) := by
  simp [pathGo, hv, yOf]

theorem pathGo_append (h : ℚ) :
    ∀ (l₁ l₂ : List (TokenBB × F)) (x : ℚ) (d : Bool),
      pathGo h (l₁ ++ l₂) x d =
        pathGo h l₁ x d ++ pathGo h l₂ (x + widthSum l₁) (drawingAfter l₁ d) := by
  intro l₁
  induction l₁ with
  | nil =>
    intro l₂ x d
    simp [pathGo_nil, widthSum_nil, drawingAfter]
  | cons p rest ih =>
    intro l₂ x d
    obtain ⟨span, v⟩ := p
    cases hv : v.isnan with
    | false =>
      rw [List.cons_append, pathGo_cons_def h span v (rest ++ l₂) x d hv,
        pathGo_cons_def h span v rest x d hv, ih, widthSum_cons, drawingAfter_cons,
        hv, Bool.not_false]
      simp only [List.cons_append, List.append_assoc]
      congr 4
      ring
    | true =>
      rw [List.cons_append, pathGo_cons_nan h span v (rest ++ l₂) x d hv,
        pathGo_cons_nan h span v rest x d hv, ih, widthSum_cons, drawingAfter_cons,
        hv, Bool.not_true]
      congr 2
      ring

theorem pathGo_false_head (h : ℚ) :
    ∀ (l : List (TokenBB × F)) (x : ℚ),
      pathGo h l x false = []
      ∨ ∃ mx my rest, pathGo h l x false = PathCmd.move mx my :: rest := by
  intro l
  induction l with
  | nil => intro x; exact Or.inl rfl
  | cons p rest ih =>
    intro x
    obtain ⟨span, v⟩ := p
    cases hv : v.isnan with
    | false =>
      rw [pathGo_cons_def h span v rest x false hv]
      simp only [Bool.false_eq_true, if_false]
      exact Or.inr ⟨_, _, _, rfl⟩
    | true =>
      rw [pathGo_cons_nan h span v rest x false hv]
      exact ih (x + span.width)

theorem pathGo_all_nan (h : ℚ) :
    ∀ (l : List (TokenBB × F)) (x : ℚ) (d : Bool),
      (∀ p ∈ l, (p.2).isnan = true) → pathGo h l x d = [] := by
  intro l
  induction l with
  | nil => intro x d _; rfl
  | cons p rest ih =>
    intro x d hall
    obtain ⟨span, v⟩ := p
    have hv : v.isnan = true := hall (span, v) (List.mem_cons_self _ _)
    simp only [pathGo, hv, if_true]
    exact ih _ _ (fun q hq => hall q (List.mem_cons_of_mem _ hq))

/-- C5: the NaN gap law of `Sparkline._create_path_data`.  If the value of
the `k`-th token of the peeked range is NaN, the emitted path decomposes as
(commands of the tokens before `k`) ++ (commands of the tokens after `k`):
index `k` contributes no command at all — in particular no anchor at its
position — and the part after `k` is either empty (no defined value on that
side, the boundary case) or starts with a move-to command, i.e. a new
disconnected sub-path rather than a connection across the gap. -/
theorem create_path_data_gap (values : List F) (spans : List TokenBB)
    (window : Nat × Nat) (h : ℚ) (k : Nat) (pk : TokenBB × F)
    (hget : (peekPairs spans values window)[k]? = some pk)
    (hnan : (pk.2).isnan = true) :
    Sparkline.create_path_data values spans window h =
      pathGo h ((peekPairs spans values window).take k)
          (peekX0 spans values window) false
        ++ pathGo h ((peekPairs spans values window).drop (k + 1))
            (peekX0 spans values window
              + widthSum ((peekPairs spans values window).take (k + 1))) false
    ∧ (pathGo h ((peekPairs spans values window).drop (k + 1))
          (peekX0 spans values window
            + widthSum ((peekPairs spans values window).take (k + 1))) false = []
       ∨ ∃ mx my rest,
          pathGo h ((peekPairs spans values window).drop (k + 1))
            (peekX0 spans values window
              + widthSum ((peekPairs spans values window).take (k + 1))) false
            = PathCmd.move mx my :: rest) := by
  obtain ⟨hk, hpk⟩ := List.getElem?_eq_some.mp hget
  obtain ⟨sk, vk⟩ := pk
  refine ⟨?_, pathGo_false_head h _ _⟩
  have hsplit : peekPairs spans values window =
      (peekPairs spans values window).take k
        ++ ((sk, vk) :: (peekPairs spans values window).drop (k + 1)) := by
    conv_lhs => rw [← List.take_append_drop k (peekPairs spans values window)]
    rw [List.drop_eq_getElem_cons hk, hpk]
  have hts : widthSum ((peekPairs spans values window).take (k + 1)) =
      widthSum ((peekPairs spans values window).take k) + sk.width := by
    rw [List.take_succ, hget, widthSum_append]
    simp [widthSum]
  have hbase : Sparkline.create_path_data values spans window h =
      pathGo h (peekPairs spans values window) (peekX0 spans values window) false := rfl
  rw [hbase]
  conv_lhs => rw [hsplit]
  rw [pathGo_append, pathGo_cons_nan h sk vk _ _ _ (by simpa using hnan), hts]
  congr 2
  ring

/-- Witness for C5 at a concrete input: three one-character tokens with
values `[1, NaN, 0]` over the full window; the emitted path is two
disconnected move-to commands, one per defined token, with nothing at the
NaN token's position. -/
theorem create_path_data_gap_witness :
    Sparkline.create_path_data [F.fin 1, F.nan, F.fin 0]
        [⟨1, 1/2, 1/2, 1/2⟩, ⟨1, 1/2, 1/2, 1/2⟩, ⟨1, 1/2, 1/2, 1/2⟩] (0, 3) 20 =
      [PathCmd.move (1/2) (F.fin 0), PathCmd.move (5/2) (F.fin 20)] := by
  have h := create_path_data_gap [F.fin 1, F.nan, F.fin 0]
    [⟨1, 1/2, 1/2, 1/2⟩, ⟨1, 1/2, 1/2, 1/2⟩, ⟨1, 1/2, 1/2, 1/2⟩] (0, 3) 20 1
    (⟨1, 1/2, 1/2, 1/2⟩, F.nan)
    (by norm_num [peekPairs, peekSlice]) rfl
  rw [h.1]
  norm_num [peekPairs, peekSlice, peekX0, pathGo, widthSum, F.isnan,
    TokenBB.is_wide, isclose, yOf, fsub, fmul, fadd, fneg]

/-- `Series` (src/subline/series.py, src/sparky/series.py): raw values with
styling; the default `normalize` is the identity, so `values = raw`. -/
structure Series where
  raw : List F
  color : String := ""
  dasharray : String := ""
  label : String := ""
deriving DecidableEq, Repr

/-- `Series.values` (identity normalization). -/
def Series.values (s : Series) : List F := s.raw

/-- `EntropySeries.normalize` (src/subline/series.py, src/sparky/series.py):
elementwise division `x / max_entropy`, where `max_entropy` stands for
`math.log(vocab_size)` (an irrational real in general; `math.log(1) = 0`
exactly, the case the claims exercise).  The input is a NumPy array / torch
tensor, so division by zero yields IEEE `inf`/`-inf`/`nan` values — it does
not raise. -/
def EntropySeries.normalize (max_entropy : ℚ) (x : List F) : List F :=
  x.map (fun v => fdiv v (.fin max_entropy))

/-- `EntropySeries.values`: the normalized raw values. -/
def EntropySeries.values (max_entropy : ℚ) (raw : List F) : List F :=
  EntropySeries.normalize max_entropy raw

/-- The `"s2"` branch of `create_series` (src/sparky/inference/visualize.py):
`s2 = (surprisal - entropy) / log(vocab_size)`, returned as two plain
`Series`, `+S₂` with the values and `-S₂` with the negated values and a
dashed stroke (`dasharray="3"`). -/
def s2Values (max_entropy : ℚ) (surp ent : List F) : List F :=
  List.zipWith (fun s e => fdiv (fsub s e) (.fin max_entropy)) surp ent

/-- `create_series(metrics, "s2", index)` (src/sparky/inference/visualize.py)
restricted to the already-sliced per-sequence rows. -/
def create_series_s2 (max_entropy : ℚ) (surp ent : List F) : List Series :=
  [{ raw := s2Values max_entropy surp ent, label := "+S₂" },
   { raw := (s2Values max_entropy surp ent).map fneg, label := "-S₂", dasharray := "3" }]

/-- C6: the S2 mirroring law.  The two series produced for the `s2` metric
satisfy `series("+S2")[k] = -series("-S2")[k]` at every index — stated as a
list equality, which includes the NaN positions, since float negation maps
NaN to NaN — and the `-S₂` series carries the dashed stroke
(`dasharray = "3"`). -/
theorem create_series_s2_mirror (max_entropy : ℚ) (surp ent : List F) :
    ((create_series_s2 max_entropy surp ent)[0]?).map Series.values =
      ((create_series_s2 max_entropy surp ent)[1]?).map
        (fun s => s.values.map fneg)
    ∧ ((create_series_s2 max_entropy surp ent)[1]?).map Series.dasharray = some "3"
    ∧ ((create_series_s2 max_entropy surp ent)[0]?).map Series.label = some "+S₂"
    ∧ ((create_series_s2 max_entropy surp ent)[1]?).map Series.label = some "-S₂" := by
  refine ⟨?_, rfl, rfl, rfl⟩
  simp only [create_series_s2, List.getElem?_cons_zero, List.getElem?_cons_succ,
    Option.map_some', Series.values]
  congr 1
  exact (map_fneg_fneg (s2Values max_entropy surp ent)).symm

/-- C4 counterexample: with `vocabSize = 1` the code does **not** fail fast
with an `InvalidVocabulary` error (no such check exists anywhere in the
repository); `EntropySeries.normalize` computes `math.log(1) = 0` and then
divides by zero, returning IEEE infinity for a finite positive entry. -/
theorem normalize_vocab_one_counterexample :
    EntropySeries.normalize 0 [F.fin 2] = [F.inf] := by
  simp only [EntropySeries.normalize, List.map_cons, List.map_nil, fdiv]
  norm_num

/-- C4 amended: `EntropySeries.normalize` performs no vocabulary validation;
with `vocabSize = 1` the divisor `math.log(1)` is exactly `0` and every
finite positive raw entry is mapped to `+inf`, every finite negative entry
to `-inf`, and `0`/NaN entries to NaN — normalization completes and returns
a value of the same length rather than raising any error. -/
theorem normalize_vocab_one (raw : List F) (k : Nat) (q : ℚ)
    (hget : raw[k]? = some (F.fin q)) (hq : 0 < q) :
    (EntropySeries.normalize 0 raw).length = raw.length
    ∧ (EntropySeries.normalize 0 raw)[k]? = some F.inf := by
  constructor
  · simp [EntropySeries.normalize]
  · simp only [EntropySeries.normalize, List.getElem?_map, hget, Option.map_some']
    simp only [fdiv, if_pos rfl]
    rw [if_neg (ne_of_gt hq), if_pos hq]
    simp

/-- Witness for C4's amended theorem at a concrete input. -/
theorem normalize_vocab_one_witness :
    (EntropySeries.normalize 0 [F.nan, F.fin 2]).length = 2
    ∧ (EntropySeries.normalize 0 [F.nan, F.fin 2])[1]? = some F.inf := by
  have h := normalize_vocab_one [F.nan, F.fin 2] 1 2 rfl (by norm_num)
  exact ⟨h.1, h.2⟩

theorem mem_zipWith_exists {α β γ : Type} (f : α → β → γ) :
    ∀ (as : List α) (bs : List β) (c : γ), c ∈ List.zipWith f as bs →
      ∃ a b, a ∈ as ∧ b ∈ bs ∧ c = f a b := by
  intro as
  induction as with
  | nil => intro bs c h; simp at h
  | cons a rest ih =>
    intro bs c h
    cases bs with
    | nil => simp at h
    | cons b brest =>
      rcases List.mem_cons.mp h with h' | h'
      · exact ⟨a, b, List.mem_cons_self _ _, List.mem_cons_self _ _, h'⟩
      · obtain ⟨a', b', ha, hb, hc⟩ := ih brest c h'
        exact ⟨a', b', List.mem_cons_of_mem _ ha, List.mem_cons_of_mem _ hb, hc⟩

theorem sum_nonpos_of_mem : ∀ (l : List ℚ), (∀ x ∈ l, x ≤ 0) → l.sum ≤ 0 := by
  intro l
  induction l with
  | nil => intro _; simp
  | cons x rest ih =>
    intro h
    simp only [List.sum_cons]
    have hx := h x (List.mem_cons_self _ _)
    have hr := ih (fun y hy => h y (List.mem_cons_of_mem _ hy))
    linarith

/-- `probs = torch.exp(log_probs).clamp(min=1e-10)`
(src/sparky/inference/calc_metrics.py): one probability entry, with `expQ`
standing for `torch.exp`. -/
def clampProb (expQ : ℚ → ℚ) (l : ℚ) : ℚ := max (expQ l) (1 / 10 ^ 10)

/-- One position of `entropies = -torch.sum(probs * log_probs, dim=-1)`
(src/sparky/inference/calc_metrics.py): `-Σ_v p(v) · log p(v)` over the
vocabulary's log-probabilities at that position. -/
def entropyAt (expQ : ℚ → ℚ) (lp : List ℚ) : ℚ :=
  -((lp.map (fun l => clampProb expQ l * l)).sum)

/-- The per-position entropy row `entropies * attention_mask`
(src/sparky/inference/calc_metrics.py line 54): positions are the T-1
next-token positions; masked (padded) positions are multiplied by 0. -/
def entropiesRow (expQ : ℚ → ℚ) (log_probs : List (List ℚ))
    (attention_mask : List ℚ) : List ℚ :=
  List.zipWith (fun lp m => entropyAt expQ lp * m) log_probs attention_mask

/-- `surprisals = -token_log_probs * attention_mask`
(src/sparky/inference/calc_metrics.py line 50). -/
def surprisalsRow (token_log_probs attention_mask : List ℚ) : List ℚ :=
  List.zipWith (fun l m => -l * m) token_log_probs attention_mask

/-- `torch.nanmean` over one row: the mean of the non-NaN entries; all-NaN
(or empty) rows give `0/0 = NaN`. -/
def nanmean (xs : List F) : F :=
  fdiv (fsum (xs.filter (fun v => ! v.isnan)))
    (.fin ((xs.filter (fun v => ! v.isnan)).length : ℚ))

/-- `sequence_entropy = torch.nanmean(entropies * attention_mask, dim=1)`
(src/sparky/inference/calc_metrics.py line 58; identically
src/calc_metrics.py line 46), for one sequence: note the row was already
multiplied by the mask once, so the mask is applied twice in total. -/
def sequence_entropy (expQ : ℚ → ℚ) (log_probs : List (List ℚ))
    (attention_mask : List ℚ) : F :=
  nanmean (List.zipWith (fun e m => F.fin (e * m))
    (entropiesRow expQ log_probs attention_mask) attention_mask)

/-- The spec's statement of per-sequence entropy, for comparison with
`sequence_entropy`: the mean of the per-position entropies over only the
valid (`attention_mask ≠ 0`) positions, so that padded positions contribute
nothing — neither to the sum nor to the count. -/
def sequence_entropy_spec (expQ : ℚ → ℚ) (log_probs : List (List ℚ))
    (attention_mask : List ℚ) : F :=
  let pairs := List.zipWith (fun e m => (e, m))
    (entropiesRow expQ log_probs attention_mask) attention_mask
  let valid := pairs.filter (fun p => p.2 ≠ 0)
  fdiv (.fin ((valid.map Prod.fst).sum)) (.fin (valid.length : ℚ))

/-- C2: `torch.nanmean(entropies * attention_mask)` does **not** average
over only the valid positions, because masked positions hold exact zeros —
not NaN — and therefore count toward `nanmean`'s denominator.  This
contradicts both the claim and the code's own comment ("torch.nanmean
handles the padding properly", src/sparky/inference/calc_metrics.py line
57).  Failing input: a sequence with one valid next-token position of
entropy 1 (per-vocab log-probs `[-1, -1]`, `torch.exp` standing in as
`fun _ => 1/2`) followed by one padded position: the code returns
`(1 + 0) / 2 = 1/2`, while the valid-positions-only mean is `1`. -/
theorem sequence_entropy_counts_padding :
    sequence_entropy (fun _ => (1 : ℚ)/2) [[-1, -1], [-2, -2]] [1, 0] = F.fin (1/2)
    ∧ sequence_entropy_spec (fun _ => (1 : ℚ)/2) [[-1, -1], [-2, -2]] [1, 0] = F.fin 1 := by
  have hmax : max ((1 : ℚ)/2) (1 / 10 ^ 10) = 1/2 := by
    rw [max_eq_left]
    norm_num
  constructor
  · norm_num [sequence_entropy, nanmean, entropiesRow, entropyAt, clampProb, hmax,
      List.zipWith, List.filter, F.isnan, fsum, fadd, fdiv]
  · norm_num [sequence_entropy_spec, entropiesRow, entropyAt, clampProb, hmax,
      List.zipWith, List.filter, fdiv]

/-- The surprisal output row of `calc_token_metrics`
(src/sparky/inference/calc_metrics.py lines 50 and 62–64): the masked
surprisals for the T-1 next-token positions with one NaN prepended
(`torch.cat((null_first, surprisals), 1)`), index-aligned with the token
sequence. -/
def surprisalsOut (token_log_probs attention_mask : List ℚ) : List F :=
  F.nan :: (surprisalsRow token_log_probs attention_mask).map F.fin

/-- The entropy output row of `calc_token_metrics`
(src/sparky/inference/calc_metrics.py lines 54 and 62–65), with the NaN
column prepended. -/
def entropiesOut (expQ : ℚ → ℚ) (log_probs : List (List ℚ))
    (attention_mask : List ℚ) : List F :=
  F.nan :: (entropiesRow expQ log_probs attention_mask).map F.fin

theorem clampProb_nonneg (expQ : ℚ → ℚ) (hexp : ∀ q, 0 ≤ expQ q) (l : ℚ) :
    0 ≤ clampProb expQ l :=
  le_trans (hexp l) (le_max_left _ _)

theorem entropyAt_nonneg (expQ : ℚ → ℚ) (hexp : ∀ q, 0 ≤ expQ q)
    (lp : List ℚ) (hlp : ∀ l ∈ lp, l ≤ 0) : 0 ≤ entropyAt expQ lp := by
  have : ((lp.map (fun l => clampProb expQ l * l)).sum) ≤ 0 := by
    apply sum_nonpos_of_mem
    intro x hx
    obtain ⟨l, hl, hxl⟩ := List.mem_map.mp hx
    subst hxl
    exact mul_nonpos_iff.mpr (Or.inl ⟨clampProb_nonneg expQ hexp l, hlp l hl⟩)
  simpa [entropyAt] using neg_nonneg.mpr this

/-- C7: in the arrays returned by `calc_token_metrics`, position 0 of every
sequence is NaN (the prepended column), and every other entry is a finite
non-negative value: surprisal is `-log p · mask` with `log p ≤ 0` (an output
of `log_softmax`) and `mask ∈ {0, 1}`; entropy is `-Σ p · log p · mask` with
`p = exp(log p).clamp(1e-10) ≥ 0`. -/
theorem metrics_out_aligned_nonneg (expQ : ℚ → ℚ) (token_log_probs : List ℚ)
    (log_probs : List (List ℚ)) (attention_mask : List ℚ)
    (hexp : ∀ q, 0 ≤ expQ q)
    (htlp : ∀ l ∈ token_log_probs, l ≤ 0)
    (hlp : ∀ lp ∈ log_probs, ∀ l ∈ lp, l ≤ 0)
    (hmask : ∀ m ∈ attention_mask, m = 0 ∨ m = 1) :
    (surprisalsOut token_log_probs attention_mask)[0]? = some F.nan
    ∧ (entropiesOut expQ log_probs attention_mask)[0]? = some F.nan
    ∧ (∀ v ∈ (surprisalsOut token_log_probs attention_mask).tail,
        ∃ q, v = F.fin q ∧ 0 ≤ q)
    ∧ (∀ v ∈ (entropiesOut expQ log_probs attention_mask).tail,
        ∃ q, v = F.fin q ∧ 0 ≤ q) := by
  refine ⟨by simp [surprisalsOut], by simp [entropiesOut], ?_, ?_⟩
  · intro v hv
    simp only [surprisalsOut, List.tail_cons] at hv
    obtain ⟨q, hq, hvq⟩ := List.mem_map.mp hv
    obtain ⟨l, m, hl, hm, hq'⟩ := mem_zipWith_exists _ _ _ _ hq
    refine ⟨q, hvq.symm, ?_⟩
    subst hq'
    have hm' : (0 : ℚ) ≤ m := by rcases hmask m hm with h | h <;> simp [h]
    have : (0 : ℚ) ≤ -l := neg_nonneg.mpr (htlp l hl)
    exact mul_nonneg this hm'
  · intro v hv
    simp only [entropiesOut, List.tail_cons] at hv
    obtain ⟨q, hq, hvq⟩ := List.mem_map.mp hv
    obtain ⟨lp, m, hl, hm, hq'⟩ := mem_zipWith_exists _ _ _ _ hq
    refine ⟨q, hvq.symm, ?_⟩
    subst hq'
    have hm' : (0 : ℚ) ≤ m := by rcases hmask m hm with h | h <;> simp [h]
    exact mul_nonneg (entropyAt_nonneg expQ hexp lp (hlp lp hl)) hm'

/-- Witness for C7 at a concrete input: one next-token position with
log-prob `-1`, a two-entry vocabulary distribution `[-1, -2]`, mask `[1]`,
and `torch.exp` standing in as the constant `1`. -/
theorem metrics_out_aligned_nonneg_witness :
    (surprisalsOut [-1] [1])[0]? = some F.nan
    ∧ (entropiesOut (fun _ => 1) [[-1, -2]] [1])[0]? = some F.nan
    ∧ (∀ v ∈ (surprisalsOut [-1] [1]).tail, ∃ q, v = F.fin q ∧ 0 ≤ q)
    ∧ (∀ v ∈ (entropiesOut (fun _ => 1) [[-1, -2]] [1]).tail,
        ∃ q, v = F.fin q ∧ 0 ≤ q) := by
  have h := metrics_out_aligned_nonneg (fun _ => 1) [-1] [[-1, -2]] [1]
    (fun _ => zero_le_one)
    (by intro l hl; rw [List.mem_singleton.mp hl]; norm_num)
    (by intro lp hlp; rw [List.mem_singleton.mp hlp]; intro l hl
        rcases List.mem_cons.mp hl with h' | h'
        · rw [h']; norm_num
        · rw [List.mem_singleton.mp h']; norm_num)
    (by intro m hm; right; exact List.mem_singleton.mp hm)
  exact h

/-- C10: `Sparky._get_token_spans` on an empty display token produces a
bounding box of width 0 with `first_char = char_width/2` and
`last_char = -char_width/2`, so the anchors are out of order
(`last_char < first_char`) rather than collapsed to a point, and
`TokenBB.is_wide` is true (the two anchors are `char_width` apart, far
outside the 5% relative tolerance). -/
theorem get_token_spans_empty_token (char_width : ℚ) (tokens : List String) (k : Nat)
    (hcw : 0 < char_width) (hget : tokens[k]? = some "") :
    (Sparky.get_token_spans char_width tokens)[k]? =
      some ⟨0, char_width / 2, 0, -(char_width / 2)⟩
    ∧ -(char_width / 2) < char_width / 2
    ∧ TokenBB.is_wide ⟨0, char_width / 2, 0, -(char_width / 2)⟩ = true := by
  refine ⟨?_, by linarith, ?_⟩
  · simp only [Sparky.get_token_spans, List.getElem?_map, hget, Option.map_some']
    congr 1
    simp only [String.length_empty, Nat.cast_zero, zero_mul, TokenBB.mk.injEq]
    norm_num
  · have h1 : |char_width / 2 - -(char_width / 2)| = char_width := by
      rw [sub_neg_eq_add, abs_of_pos (by linarith)]
      ring
    have h2 : |char_width / 2| = char_width / 2 := abs_of_pos (by linarith)
    simp only [TokenBB.is_wide, isclose, h1, abs_neg, h2, max_self, Bool.not_eq_true']
    apply decide_eq_false
    intro hle
    rw [max_eq_left (by positivity)] at hle
    linarith

/-- Witness for C10 at a concrete input: the empty token in `["", "a"]` with
the source's character width 8.4. -/
theorem get_token_spans_empty_token_witness :
    (Sparky.get_token_spans (42/5) ["", "a"])[0]? =
      some ⟨0, (42/5) / 2, 0, -((42/5) / 2)⟩
    ∧ -((42/5 : ℚ) / 2) < (42/5) / 2
    ∧ TokenBB.is_wide ⟨0, (42/5) / 2, 0, -((42/5) / 2)⟩ = true := by
  have h := get_token_spans_empty_token (42/5) ["", "a"] 0 (by norm_num) (by simp)
  exact h

/-- A node of the generated SVG document: tag, attributes in insertion
order (keys already hyphenated, as the `Element` helper in src/dom.py
rewrites `_` to `-`), optional text, children. -/
inductive Node where
  | el : String → List (String × String) → Option String → List Node → Node
deriving Repr

/-- Stand-in for the Python `f"{v:.1f}"` formatting used for path data
(src/subline/sparkline.py): one decimal digit.  No claim depends on
byte-exact agreement with CPython's float formatting; this fixes one
definite, executable choice. -/
def fmtQ1 (q : ℚ) : String :=
  let n : ℤ := round (q * 10)
  (if n < 0 then "-" else "") ++ toString (n.natAbs / 10) ++ "." ++ toString (n.natAbs % 10)

/-- `f"{v:.1f}"` on a model float: IEEE specials print as `nan`/`inf`. -/
def fmtF1 : F → String
  | .nan => "nan"
  | .inf => "inf"
  | .ninf => "-inf"
  | .fin q => fmtQ1 q

/-- One path command as formatted by `Sparkline._create_path_data`:
`f"M {vertex:.1f},{y:.1f}"` / `f"S {cp:.1f},{y:.1f} {vertex:.1f},{y:.1f}"`. -/
def cmdStr : PathCmd → String
  | .move x y => "M " ++ fmtQ1 x ++ "," ++ fmtF1 y
  | .smooth cx cy x y =>
    "S " ++ fmtQ1 cx ++ "," ++ fmtF1 cy ++ " " ++ fmtQ1 x ++ "," ++ fmtF1 y

/-- `" ".join(points)`: the `d` attribute text of one series path. -/
def pathDataStr (cmds : List PathCmd) : String :=
  String.intercalate " " (cmds.map cmdStr)

/-- Lowercase hex digit. -/
def hexDigit (n : Nat) : Char :=
  if n < 10 then Char.ofNat (48 + n) else Char.ofNat (87 + n)

/-- Fuel-driven lowercase hex rendering of a natural number. -/
def toHexCore : Nat → Nat → List Char
  | 0, _ => []
  | fuel + 1, n =>
    if n < 16 then [hexDigit n]
    else toHexCore fuel (n / 16) ++ [hexDigit (n % 16)]

/-- Python `f"{n:x}"`. -/
def toHex (n : Nat) : String := String.mk (toHexCore (n + 1) n)

/-- `gen_ids` (src/dom.py): the SVG-id stream `f"{seed}-{counter:x}"`.  The
seed is four random bytes in hex drawn once per generator (modelled as a
parameter); the counter is the generator state, incremented at each `next`.
The module-level `id_sequence` consumed by `Sparkline.render` is one
instance of this stream, so successive `next` calls within and across
renders yield distinct counters. -/
def gen_ids (seed : String) (counter : Nat) : String :=
  seed ++ "-" ++ toHex counter

/-- A series as stored by `Sparkline.add_series` (src/subline/sparkline.py):
normalized values, an optional explicit color (default `None`), dasharray. -/
structure SparkSeries where
  values : List F
  color : Option String := none
  dasharray : String := ""
deriving DecidableEq, Repr

/-- Python truthiness of `series.color` in `series.color or next(palette)`:
`None` and the empty string are falsy. -/
def truthyColor : Option String → Bool
  | none => false
  | some s => !(s == "")

/-- A palette entry (src/subline/sparkline.py): a plain color string or a
(light, dark) tuple. -/
inductive ColorSpec where
  | plain : String → ColorSpec
  | themed : String → String → ColorSpec
deriving DecidableEq, Repr

/-- `Sparkline.palette` (src/subline/sparkline.py): exactly five entries —
blue, a red (light, dark) pair, green, orange, purple. -/
def palette5 : List ColorSpec :=
  [.plain "#3b82f6", .themed "#ef4444" "#ff7878", .plain "#22c55e",
   .plain "#f97316", .plain "#a855f7"]

/-- `str(color)` as it reaches the stroke attribute: a tuple prints with
Python tuple repr. -/
def colorStr : ColorSpec → String
  | .plain c => c
  | .themed a b => "(\x27" ++ a ++ "\x27, \x27" ++ b ++ "\x27)"

/-- The color-assignment loop of `Sparkline.render`
(src/subline/sparkline.py lines 127–131): `palette = iter(self.palette)` is
a fresh five-entry iterator per render call, never cycled; each series uses
its own truthy color or draws `next(palette)`.  A sixth colorless series
exhausts the iterator: `next` raises StopIteration, modelled as `none`. -/
def assignColors :
    List SparkSeries → List ColorSpec → Option (List (SparkSeries × ColorSpec))
  | [], _ => some []
  | s :: ss, pal =>
    if truthyColor s.color then
      (assignColors ss pal).map (fun l => (s, ColorSpec.plain (s.color.getD "")) :: l)
    else
      match pal with
      | [] => none
      | c :: pal' => (assignColors ss pal').map (fun l => (s, c) :: l)

/-- Total width of a list of token bounding boxes
(`w = sum(span.width for span in spans[start:end])`). -/
def widthSumBB (spans : List TokenBB) : ℚ := (spans.map TokenBB.width).sum

/-- The token baseline segments of `Sparkline.render`: for each visible
token, `(x + first_char, x + last_char)` with `x` the running offset. -/
def baselineGo : List TokenBB → ℚ → List (ℚ × ℚ)
  | [], _ => []
  | span :: rest, x =>
    (x + span.first_char, x + span.last_char) :: baselineGo rest (x + span.width)

/-- The baseline path data: `f"M{first-0.2:.1f},{h:.1f} L{last+0.2:.1f},{h:.1f}"`
per segment, joined with spaces. -/
def baselineStr (h : ℚ) (segs : List (ℚ × ℚ)) : String :=
  String.intercalate " " (segs.map (fun s =>
    "M" ++ fmtQ1 (s.1 - 1/5) ++ "," ++ fmtQ1 h
      ++ " L" ++ fmtQ1 (s.2 + 1/5) ++ "," ++ fmtQ1 h))

/-- The path element built by `Sparkline._render_series`
(src/subline/sparkline.py), plus the `clip-path` attribute that `render`
sets on it immediately afterwards. -/
def pathNode (clipId : String) (spans : List TokenBB) (window : Nat × Nat)
    (h : ℚ) (p : SparkSeries × ColorSpec) : Node :=
  .el "path"
    [("d", pathDataStr (Sparkline.create_path_data p.1.values spans window h)),
     ("fill", "none"),
     ("stroke", colorStr p.2),
     ("stroke-width", fmtQ1 1),
     ("stroke-dasharray", p.1.dasharray),
     ("style", "mix-blend-mode: var(--blend-mode);"),
     ("clip-path", "url(#" ++ clipId ++ ")")] none []

/-- The clipPath element of `Sparkline.render`: a rectangle spanning the
visible token width `w`, extended vertically (`y=-h`, `height=2h`). -/
def clipNode (clipId : String) (w h : ℚ) : Node :=
  .el "clipPath" [("id", clipId)] none
    [.el "rect" [("x", fmtQ1 0), ("y", fmtQ1 (-h)), ("width", fmtQ1 w),
      ("height", fmtQ1 (h * 2))] none []]

/-- The token-baseline path element of `Sparkline.render`. -/
def baselineNode (h : ℚ) (vis : List TokenBB) : Node :=
  .el "path"
    [("d", baselineStr h (baselineGo vis 0)),
     ("fill", "none"), ("stroke", "var(--col-baseline)"),
     ("stroke-width", fmtQ1 3), ("stroke-linecap", "round"),
     ("style", "mix-blend-mode: var(--blend-mode);")] none []

/-- The children appended to the parent by `Sparkline.render`
(src/subline/sparkline.py): the clipPath (with the one generated id for
this call), one path per series, and the token baseline path.  `none`
models the StopIteration raised on palette exhaustion.  Numeric attributes
are rendered with the `fmtQ1` stand-in formatter. -/
def renderChildren (series : List SparkSeries) (spans : List TokenBB)
    (window : Nat × Nat) (h : ℚ) (seed : String) (ctr : Nat) :
    Option (List Node) :=
  let vis := (spans.drop window.1).take (window.2 - window.1)
  let clipId := "clip-" ++ gen_ids seed ctr
  (assignColors series palette5).map (fun assigned =>
    clipNode clipId (widthSumBB vis) h
      :: (assigned.map (pathNode clipId spans window h)
          ++ [baselineNode h vis]))

/-- `Sparkline.render` (src/subline/sparkline.py): wraps the children in a
translate group when `x` or `y` is nonzero; the id counter advances by the
one id consumed by this call.  A `none` first component models
StopIteration from palette exhaustion. -/
def Sparkline.render (series : List SparkSeries) (spans : List TokenBB)
    (window : Nat × Nat) (x y h : ℚ) (seed : String) (ctr : Nat) :
    Option (List Node) × Nat :=
  match renderChildren series spans window h seed ctr with
  | none => (none, ctr + 1)
  | some children =>
    (some (if x ≠ 0 ∨ y ≠ 0 then
        [.el "g" [("transform", "translate(" ++ fmtQ1 x ++ ", " ++ fmtQ1 y ++ ")")]
          none children]
      else children), ctr + 1)

mutual

/-- Serialization of a document node to markup text (`ET.tostring`): tag,
attributes in order, text, children. -/
def Node.serialize : Node → String
  | .el tag attrs txt children =>
    "<" ++ tag
      ++ String.join (attrs.map (fun a => " " ++ a.1 ++ "=\x22" ++ a.2 ++ "\x22"))
      ++ ">"
      ++ (match txt with | none => "" | some t => t)
      ++ Node.serializeList children
      ++ "</" ++ tag ++ ">"

/-- Serialization of sibling nodes in order. -/
def Node.serializeList : List Node → String
  | [] => ""
  | n :: ns => Node.serialize n ++ Node.serializeList ns

end

/-- Blank out the values of the generated-id attributes (`id`, `clip-path`),
leaving every other byte of the document intact. -/
def stripAttr (a : String × String) : String × String :=
  if a.1 = "id" ∨ a.1 = "clip-path" then (a.1, "") else a

mutual

/-- A document with its generated ids blanked out. -/
def stripIds : Node → Node
  | .el tag attrs txt children =>
    .el tag (attrs.map stripAttr) txt (stripIdsList children)

/-- `stripIds` over sibling nodes. -/
def stripIdsList : List Node → List Node
  | [] => []
  | n :: ns => stripIds n :: stripIdsList ns

end

theorem stripIdsList_eq_map (l : List Node) : stripIdsList l = l.map stripIds := by
  induction l with
  | nil => rfl
  | cons n ns ih => simp [stripIdsList, ih]

theorem stripIds_clipNode (cid cid' : String) (w h : ℚ) :
    stripIds (clipNode cid w h) = stripIds (clipNode cid' w h) := rfl

theorem stripIds_pathNode (cid cid' : String) (spans : List TokenBB)
    (window : Nat × Nat) (h : ℚ) (p : SparkSeries × ColorSpec) :
    stripIds (pathNode cid spans window h p)
      = stripIds (pathNode cid' spans window h p) := rfl

theorem stripIdsList_renderBody (assigned : List (SparkSeries × ColorSpec))
    (spans : List TokenBB) (window : Nat × Nat) (h w : ℚ)
    (vis : List TokenBB) (cid cid' : String) :
    stripIdsList (clipNode cid w h
        :: (assigned.map (pathNode cid spans window h) ++ [baselineNode h vis]))
      = stripIdsList (clipNode cid' w h
        :: (assigned.map (pathNode cid' spans window h) ++ [baselineNode h vis])) := by
  simp only [stripIdsList_eq_map, List.map_cons, List.map_append, List.map_map]
  congr 1

theorem stripIdsList_g (t : String) (ch ch' : List Node)
    (hch : stripIdsList ch = stripIdsList ch') :
    stripIdsList [Node.el "g" [("transform", t)] none ch]
      = stripIdsList [Node.el "g" [("transform", t)] none ch'] := by
  simp only [stripIdsList, stripIds]
  rw [hch]

/-- C3 amended: two renderings of the same inputs at different id-generator
states produce documents that are identical except for the generated
clipPath id and the `clip-path` references to it: blanking those attribute
values makes the documents equal, and in particular rendering is fully
deterministic given the id-generator state.  Byte-identical output fails
exactly on the id bytes (see the counterexample). -/
theorem render_identical_up_to_ids (series : List SparkSeries)
    (spans : List TokenBB) (window : Nat × Nat) (x y h : ℚ) (seed : String)
    (c c' : Nat) :
    ((Sparkline.render series spans window x y h seed c).1).map stripIdsList =
      ((Sparkline.render series spans window x y h seed c').1).map stripIdsList := by
  simp only [Sparkline.render, renderChildren]
  cases hac : assignColors series palette5 with
  | none => rfl
  | some assigned =>
    simp only [Option.map_some']
    have hb := stripIdsList_renderBody assigned spans window h
      (widthSumBB ((spans.drop window.1).take (window.2 - window.1)))
      ((spans.drop window.1).take (window.2 - window.1))
      ("clip-" ++ gen_ids seed c) ("clip-" ++ gen_ids seed c')
    by_cases hxy : x ≠ 0 ∨ y ≠ 0
    · simp only [if_pos hxy, Option.map_some']
      exact congrArg some (stripIdsList_g _ _ _ hb)
    · simp only [if_neg hxy, Option.map_some']
      exact congrArg some hb

/-- Every `Sparkline.render` call consumes exactly one generated id. -/
theorem render_snd (series : List SparkSeries) (spans : List TokenBB)
    (window : Nat × Nat) (x y h : ℚ) (seed : String) (ctr : Nat) :
    (Sparkline.render series spans window x y h seed ctr).2 = ctr + 1 := by
  simp only [Sparkline.render]
  cases renderChildren series spans window h seed ctr <;> rfl

/-- C3 counterexample: rendering the same series, spans, window and
configuration twice in succession (threading the id-generator state, as the
shared module-level `id_sequence` does) yields serialized documents that are
not byte-identical: the generated clipPath id advances from `clip-ab-0` to
`clip-ab-1`. -/
theorem render_twice_not_byte_identical :
    ((Sparkline.render [⟨[F.nan], none, ""⟩] [⟨1, 0, 0, 0⟩] (0, 1) 0 0 20 "ab" 0).1).map
        Node.serializeList
      ≠ ((Sparkline.render [⟨[F.nan], none, ""⟩] [⟨1, 0, 0, 0⟩] (0, 1) 0 0 20 "ab"
            ((Sparkline.render [⟨[F.nan], none, ""⟩] [⟨1, 0, 0, 0⟩] (0, 1) 0 0 20 "ab" 0).2)).1).map
        Node.serializeList := by
  have hnan1 : ∀ p ∈ peekPairs [(⟨1, 0, 0, 0⟩ : TokenBB)] [F.nan] (0, 1),
      (p.2).isnan = true := by
    intro p hp
    simp only [peekPairs, peekSlice] at hp
    norm_num at hp
    rw [hp]
    rfl
  have hcp : Sparkline.create_path_data [F.nan] [⟨1, 0, 0, 0⟩] (0, 1) 20 = [] :=
    pathGo_all_nan 20 _ _ _ hnan1
  have hd : pathDataStr (Sparkline.create_path_data [F.nan] [⟨1, 0, 0, 0⟩] (0, 1) 20)
      = "" := by rw [hcp]; rfl
  have hassign : assignColors [⟨[F.nan], none, ""⟩] palette5
      = some [(⟨[F.nan], none, ""⟩, ColorSpec.plain "#3b82f6")] := rfl
  have hf0 : fmtQ1 0 = "0.0" := by norm_num [fmtQ1, round_eq]; rfl
  have hfm20 : fmtQ1 (-(20 : ℚ)) = "-20.0" := by norm_num [fmtQ1, round_eq]; rfl
  have hf40 : fmtQ1 ((20 : ℚ) * 2) = "40.0" := by norm_num [fmtQ1, round_eq]; rfl
  have hf1 : fmtQ1 (1 : ℚ) = "1.0" := by norm_num [fmtQ1, round_eq]; rfl
  have hf3 : fmtQ1 (3 : ℚ) = "3.0" := by norm_num [fmtQ1, round_eq]; rfl
  have hf20 : fmtQ1 (20 : ℚ) = "20.0" := by norm_num [fmtQ1, round_eq]; rfl
  have hfa : fmtQ1 ((0 : ℚ) + 0 - 1/5) = "-0.2" := by norm_num [fmtQ1, round_eq]; rfl
  have hfb : fmtQ1 ((0 : ℚ) + 0 + 1/5) = "0.2" := by norm_num [fmtQ1, round_eq]; rfl
  have hw : widthSumBB [(⟨1, 0, 0, 0⟩ : TokenBB)] = 1 := by
    norm_num [widthSumBB]
  have hbl : baselineStr 20 (baselineGo [(⟨1, 0, 0, 0⟩ : TokenBB)] 0)
      = "M-0.2,20.0 L0.2,20.0" := by
    simp only [baselineGo, baselineStr, List.map_cons, List.map_nil, hfa, hfb, hf20]
    rfl
  intro heq
  rw [render_snd] at heq
  norm_num [Sparkline.render, renderChildren, hassign, clipNode, pathNode,
    baselineNode, gen_ids, hd, hw, hbl, hf0, hfm20, hf40, hf1, hf3] at heq
  exact absurd heq (by decide)

theorem assignColors_none_iff :
    ∀ (ss : List SparkSeries) (pal : List ColorSpec),
      assignColors ss pal = none ↔
        pal.length < (ss.filter (fun s => ! truthyColor s.color)).length := by
  intro ss
  induction ss with
  | nil =>
    intro pal
    simp [assignColors]
  | cons s rest ih =>
    intro pal
    cases hc : truthyColor s.color with
    | true => simp [assignColors, hc, ih pal, Option.map_eq_none']
    | false =>
      cases pal with
      | nil => simp [assignColors, hc]
      | cons c pal' =>
        simp only [assignColors, hc, Bool.false_eq_true, if_false,
          Option.map_eq_none', ih pal', List.filter_cons, Bool.not_false, if_true,
          List.length_cons]
        omega

theorem assignColors_some_spec :
    ∀ (ss : List SparkSeries) (pal : List ColorSpec)
      (l : List (SparkSeries × ColorSpec)),
      assignColors ss pal = some l →
        l.map Prod.fst = ss
        ∧ (l.filter (fun p => ! truthyColor p.1.color)).map Prod.snd
            = pal.take ((ss.filter (fun s => ! truthyColor s.color)).length)
        ∧ ∀ p ∈ l, truthyColor p.1.color = true →
            p.2 = ColorSpec.plain (p.1.color.getD "") := by
  intro ss
  induction ss with
  | nil =>
    intro pal l hl
    simp only [assignColors, Option.some.injEq] at hl
    subst hl
    simp
  | cons s rest ih =>
    intro pal l hl
    cases hc : truthyColor s.color with
    | true =>
      simp only [assignColors, hc, if_true, Option.map_eq_some'] at hl
      obtain ⟨l', hl', rfl⟩ := hl
      obtain ⟨h1, h2, h3⟩ := ih pal l' hl'
      refine ⟨by simp [h1], ?_, ?_⟩
      · simp [List.filter_cons, hc, h2]
      · intro p hp ht
        rcases List.mem_cons.mp hp with rfl | hp'
        · rfl
        · exact h3 p hp' ht
    | false =>
      cases pal with
      | nil => simp [assignColors, hc] at hl
      | cons c pal' =>
        simp only [assignColors, hc, Bool.false_eq_true, if_false,
          Option.map_eq_some'] at hl
        obtain ⟨l', hl', rfl⟩ := hl
        obtain ⟨h1, h2, h3⟩ := ih pal' l' hl'
        refine ⟨by simp [h1], ?_, ?_⟩
        · simp [List.filter_cons, hc, h2, List.take_succ_cons]
        · intro p hp ht
          rcases List.mem_cons.mp hp with rfl | hp'
          · rw [hc] at ht
            exact absurd ht (by simp)
          · exact h3 p hp' ht

theorem render_fst_none_iff (series : List SparkSeries) (spans : List TokenBB)
    (window : Nat × Nat) (x y h : ℚ) (seed : String) (ctr : Nat) :
    (Sparkline.render series spans window x y h seed ctr).1 = none
      ↔ assignColors series palette5 = none := by
  simp only [Sparkline.render, renderChildren]
  cases hac : assignColors series palette5 with
  | none => simp
  | some assigned => simp

/-- C8: the palette of `Sparkline.render` is a finite five-entry iterator
that is never cycled.  A render call fails (StopIteration from `next` on the
exhausted iterator) exactly when more than five of its series have a falsy
(`None` or empty) color; with at most five colorless series the call
succeeds, explicit colors are kept, and the colorless series receive the
palette entries in insertion order (the i-th colorless series gets the i-th
palette entry). -/
theorem render_palette_exhaustion (series : List SparkSeries) (spans : List TokenBB)
    (window : Nat × Nat) (x y h : ℚ) (seed : String) (ctr : Nat) :
    ((Sparkline.render series spans window x y h seed ctr).1 = none
      ↔ 5 < (series.filter (fun s => ! truthyColor s.color)).length)
    ∧ ∀ l, assignColors series palette5 = some l →
        l.map Prod.fst = series
        ∧ (l.filter (fun p => ! truthyColor p.1.color)).map Prod.snd
            = palette5.take ((series.filter (fun s => ! truthyColor s.color)).length)
        ∧ ∀ p ∈ l, truthyColor p.1.color = true →
            p.2 = ColorSpec.plain (p.1.color.getD "") := by
  constructor
  · exact (render_fst_none_iff series spans window x y h seed ctr).trans
      (assignColors_none_iff series palette5)
  · intro l hl
    exact assignColors_some_spec series palette5 l hl

/-- Witness for C8: six colorless series make `render` fail, while an
explicit color followed by one colorless series succeeds, keeping the
explicit color and assigning the first palette entry (blue) to the
colorless one. -/
theorem render_palette_exhaustion_witness :
    (Sparkline.render [⟨[], none, ""⟩, ⟨[], some "", ""⟩, ⟨[], none, ""⟩,
        ⟨[], none, ""⟩, ⟨[], none, ""⟩, ⟨[], none, ""⟩] [] (0, 0) 0 0 20 "ab" 0).1 = none
    ∧ ([((⟨[], some "red", ""⟩ : SparkSeries), ColorSpec.plain "red"),
        ((⟨[], none, ""⟩ : SparkSeries), ColorSpec.plain "#3b82f6")].map Prod.fst
        = [⟨[], some "red", ""⟩, ⟨[], none, ""⟩])
    ∧ (([((⟨[], some "red", ""⟩ : SparkSeries), ColorSpec.plain "red"),
         ((⟨[], none, ""⟩ : SparkSeries), ColorSpec.plain "#3b82f6")].filter
            (fun p => ! truthyColor p.1.color)).map Prod.snd
        = palette5.take ((([⟨[], some "red", ""⟩, ⟨[], none, ""⟩] :
            List SparkSeries).filter (fun s => ! truthyColor s.color)).length)) := by
  refine ⟨?_, ?_, ?_⟩
  · exact (render_palette_exhaustion [⟨[], none, ""⟩, ⟨[], some "", ""⟩, ⟨[], none, ""⟩,
      ⟨[], none, ""⟩, ⟨[], none, ""⟩, ⟨[], none, ""⟩] [] (0, 0) 0 0 20 "ab" 0).1.mpr
      (by decide)
  · exact ((render_palette_exhaustion [⟨[], some "red", ""⟩, ⟨[], none, ""⟩] [] (0, 0)
      0 0 20 "ab" 0).2 _ rfl).1
  · exact ((render_palette_exhaustion [⟨[], some "red", ""⟩, ⟨[], none, ""⟩] [] (0, 0)
      0 0 20 "ab" 0).2 _ rfl).2.1

/-- C9: a series whose values are NaN at every token of the peeked range
draws nothing, but never raises: `_create_path_data` returns no commands,
its `d` attribute is the empty string, and `render` still emits a path
element for that series — child `j+1` of the emitted children (after the
clipPath) is a path node whose first attribute is `d=""`. -/
theorem all_nan_series_renders_empty_path (values : List F) (spans : List TokenBB)
    (window : Nat × Nat) (h : ℚ)
    (hnan : ∀ p ∈ peekPairs spans values window, (p.2).isnan = true) :
    Sparkline.create_path_data values spans window h = []
    ∧ pathDataStr (Sparkline.create_path_data values spans window h) = ""
    ∧ ∀ (series : List SparkSeries) (seed : String) (ctr j : Nat)
        (pj : SparkSeries) (assigned : List (SparkSeries × ColorSpec)),
        series[j]? = some pj → pj.values = values →
        assignColors series palette5 = some assigned →
        ∃ rest : List (String × String),
          (renderChildren series spans window h seed ctr).map (fun cs => cs[j + 1]?)
            = some (some (Node.el "path" (("d", "") :: rest) none [])) := by
  have h1 : Sparkline.create_path_data values spans window h = [] :=
    pathGo_all_nan h _ _ _ hnan
  refine ⟨h1, by rw [h1]; rfl, ?_⟩
  intro series seed ctr j pj assigned hj hvals hac
  obtain ⟨hfst, -, -⟩ := assignColors_some_spec series palette5 assigned hac
  have hjlt : j < series.length := (List.getElem?_eq_some.mp hj).1
  have hlen : assigned.length = series.length := by
    rw [← hfst, List.length_map]
  have hpj : ∃ cj, assigned[j]? = some cj ∧ cj.1 = pj := by
    have hmap := congrArg (fun t => t[j]?) hfst
    simp only [List.getElem?_map, hj] at hmap
    obtain ⟨cj, hcj, hcj1⟩ := Option.map_eq_some'.mp hmap
    exact ⟨cj, hcj, hcj1⟩
  obtain ⟨cj, hcj, hcj1⟩ := hpj
  refine ⟨[("fill", "none"), ("stroke", colorStr cj.2), ("stroke-width", fmtQ1 1),
    ("stroke-dasharray", cj.1.dasharray),
    ("style", "mix-blend-mode: var(--blend-mode);"),
    ("clip-path", "url(#" ++ ("clip-" ++ gen_ids seed ctr) ++ ")")], ?_⟩
  simp only [renderChildren, hac, Option.map_some']
  congr 1
  rw [List.getElem?_cons_succ,
    List.getElem?_append_left (by rw [List.length_map]; omega),
    List.getElem?_map, hcj, Option.map_some']
  simp only [pathNode, hcj1, hvals, h1]
  rfl

/-- Witness for C9 at a concrete input: a single all-NaN series over one
token renders as a path element with an empty `d` attribute. -/
theorem all_nan_series_renders_empty_path_witness :
    Sparkline.create_path_data [F.nan] [⟨1, 0, 0, 0⟩] (0, 1) 20 = []
    ∧ pathDataStr (Sparkline.create_path_data [F.nan] [⟨1, 0, 0, 0⟩] (0, 1) 20) = ""
    ∧ ∃ rest : List (String × String),
        (renderChildren [⟨[F.nan], none, ""⟩] [⟨1, 0, 0, 0⟩] (0, 1) 20 "ab" 0).map
            (fun cs => cs[0 + 1]?)
          = some (some (Node.el "path" (("d", "") :: rest) none [])) := by
  have h := all_nan_series_renders_empty_path [F.nan] [⟨1, 0, 0, 0⟩] (0, 1) 20
    (by
      intro p hp
      simp only [peekPairs, peekSlice] at hp
      norm_num at hp
      rw [hp]
      rfl)
  refine ⟨h.1, h.2.1, ?_⟩
  obtain ⟨rest, hr⟩ := h.2.2 [⟨[F.nan], none, ""⟩] "ab" 0 0 ⟨[F.nan], none, ""⟩
    [(⟨[F.nan], none, ""⟩, ColorSpec.plain "#3b82f6")] (by simp) rfl rfl
  exact ⟨rest, hr⟩
